import Mathlib

/-!
Shallow embedding of the operation-synchronization engine of valtio-egwalker:
the batching/deduplication layer, the reconnection state machine and the
snapshot-based undo/redo manager, as implemented in
`dist-test/src/egwalker_api_stub.js` (with the sibling message handler of
`unnamed/part_002` / `egwalker_api_sync`).  JS strings are lists of
characters, the insertion-ordered `Set` of sent keys is a list (head =
oldest), timers are booleans / scheduled-delay options, and the valtio
subscribe callbacks are invoked synchronously after each proxy mutation.
-/

namespace VE

inductive OpType where
  | Insert
  | Delete
deriving DecidableEq, Repr

/-- The wire operation record:
`{ lv, agent_id, op_type, content?, origin_left, origin_right, deps }`. -/
structure Operation where
  lv : Nat
  agent_id : String
  op_type : OpType
  content : Option (List Char) := none
  origin_left : Nat := 0
  origin_right : Nat := 0
  deps : List Nat := []
deriving DecidableEq, Repr

/-- The dedup identity key of an operation, the template string
computed in `queueOperation`. -/
def opKey (op : Operation) : String :=
  op.agent_id ++ ":" ++ Nat.repr op.lv

/-- One undo/redo snapshot `{ text, timestamp }`. -/
structure UndoSnapshot where
  text : List Char
  timestamp : Nat
deriving DecidableEq, Repr

/-- Per-agent undo state kept in `agentStateMap`.  The stacks are lists whose
head is the JS arrays' last element (the push/pop end). -/
structure AgentUndoState where
  agentId : String
  undoStack : List UndoSnapshot
  redoStack : List UndoSnapshot
  lastText : List Char
  isSuppressed : Bool
deriving DecidableEq, Repr

/-- The valtio proxy contents: `{ text, cursor, syncing }` plus the
`__pendingOps` field read by the stub's `get_pending_ops_json`. -/
structure TextState where
  text : List Char
  cursor : Nat
  syncing : Bool
  pendingOps : List Operation
deriving DecidableEq, Repr

inductive ConnState where
  | connecting
  | connected
  | reconnecting
  | disconnected
deriving DecidableEq, Repr

/-- WebSocket readyState values that matter to the code. -/
inductive WsReady where
  | CONNECTING
  | OPEN
  | CLOSED
deriving DecidableEq, Repr

/-- Messages sent over the socket by this layer. -/
inductive Msg where
  | join (room : String)
  | batch (room : String) (ops : List Operation)
deriving DecidableEq, Repr

/-- The whole session: proxy document, per-agent undo state and the closure
variables of `setupWebSocketSync`. -/
structure SyncState where
  doc : TextState
  agent : Option AgentUndoState
  roomId : String
  sentOps : List String
  pendingBatch : List Operation
  batchTimeout : Bool
  isProcessingRemote : Bool
  reconnectAttempts : Nat
  reconnectTimeout : Option Nat
  wsSubscribed : Bool
  isDisposed : Bool
  connectionState : ConnState
  wsReady : WsReady
  clock : Nat
deriving DecidableEq, Repr

def BATCH_DELAY_MS : Nat := 200

def SENT_OPS_LIMIT : Nat := 10000

def RECONNECT_BASE_DELAY_MS : Nat := 1000

def RECONNECT_MAX_DELAY_MS : Nat := 30000

def RECONNECT_MAX_ATTEMPTS : Nat := 10

/-- `queueOperation` of `setupWebSocketSync`: no-op when the key is already in
the dedup window, otherwise insert the key, append the op to the pending
batch, evict the oldest key when over capacity, and make sure a flush timer
is scheduled. -/
def queueOperation (s : SyncState) (op : Operation) : SyncState :=
  let k := opKey op
  if k ∈ s.sentOps then s
  else
    let so := s.sentOps ++ [k]
    let so := if so.length > SENT_OPS_LIMIT then so.tail else so
    { s with sentOps := so,
             pendingBatch := s.pendingBatch ++ [op],
             batchTimeout := true }

/-- The undo-tracking subscribe callback registered in
`create_egwalker_proxy` when undo is enabled. -/
def notifyUndo (s : SyncState) : SyncState :=
  match s.agent with
  | none => s
  | some st =>
    if st.isSuppressed then s
    else if s.doc.text ≠ st.lastText then
      { s with agent := some { st with
          undoStack := ⟨st.lastText, s.clock⟩ :: st.undoStack,
          redoStack := [],
          lastText := s.doc.text } }
    else s

/-- The network subscribe callback of `setupWebSocketSync`: skip while a
remote operation is being processed, otherwise queue every operation
reported by `get_pending_ops_json`. -/
def notifyNetwork (s : SyncState) : SyncState :=
  if ¬ s.wsSubscribed then s
  else if s.isProcessingRemote then s
  else s.doc.pendingOps.foldl queueOperation s

/-- All subscribe callbacks, in registration order (undo tracker first). -/
def notify (s : SyncState) : SyncState :=
  notifyNetwork (notifyUndo s)

/-- Assignment to `proxyState.text`; valtio notifies subscribers only when the
value actually changed. -/
def setText (s : SyncState) (t : List Char) : SyncState :=
  if t = s.doc.text then s
  else notify { s with doc := { s.doc with text := t } }

/-- The `finally` block of `apply_remote_op`: resynchronize `lastText` and
clear the suppression flag. -/
def applyFinally (s : SyncState) : SyncState :=
  match s.agent with
  | none => s
  | some st =>
    { s with agent := some { st with lastText := s.doc.text, isSuppressed := false } }

/-- The Insert/Delete application inside `apply_remote_op`'s try block. -/
def applyRemoteBody (s : SyncState) (op : Operation) : SyncState :=
  match op.op_type with
  | .Insert =>
    match op.content with
    | some c =>
      if c ≠ [] then
        let pos := Nat.min op.origin_left s.doc.text.length
        setText s (s.doc.text.take pos ++ c ++ s.doc.text.drop pos)
      else s
    | none => s
  | .Delete =>
    let pos := Nat.min op.origin_left s.doc.text.length
    if pos < s.doc.text.length then
      setText s (s.doc.text.take pos ++ s.doc.text.drop (pos + 1))
    else s

/-- The entry of `apply_remote_op`: `if (state) state.isSuppressed = true`. -/
def applySuppress (s : SyncState) : SyncState :=
  match s.agent with
  | some st => { s with agent := some { st with isSuppressed := true } }
  | none => s

/-- `apply_remote_op(proxyState, op_json)`.  `none` models an `op_json` that
is not valid JSON (a message whose `op` field was absent is stringified to
`undefined`, and `JSON.parse` then throws inside the `try` block); the
returned Bool tells whether an exception propagated out.  The `finally`
block runs on both paths. -/
def apply_remote_op (s : SyncState) (o : Option Operation) : SyncState × Bool :=
  let s := applySuppress s
  match o with
  | none => (applyFinally s, true)
  | some op => (applyFinally (applyRemoteBody s op), false)

/-- `undo(proxyState)`: no-op on an empty undo stack, otherwise push the live
text on the redo stack, pop and restore the newest undo snapshot while
suppressed, and resynchronize `lastText`. -/
def undo (s : SyncState) : SyncState :=
  match s.agent with
  | none => s
  | some st =>
    match st.undoStack with
    | [] => s
    | snapshot :: rest =>
      let st1 := { st with isSuppressed := true,
                           redoStack := ⟨s.doc.text, s.clock⟩ :: st.redoStack,
                           undoStack := rest }
      let s1 := setText { s with agent := some st1 } snapshot.text
      match s1.agent with
      | none => s1
      | some st2 =>
        { s1 with agent := some { st2 with lastText := snapshot.text, isSuppressed := false } }

/-- `redo(proxyState)`: symmetric to `undo`. -/
def redo (s : SyncState) : SyncState :=
  match s.agent with
  | none => s
  | some st =>
    match st.redoStack with
    | [] => s
    | snapshot :: rest =>
      let st1 := { st with isSuppressed := true,
                           undoStack := ⟨s.doc.text, s.clock⟩ :: st.undoStack,
                           redoStack := rest }
      let s1 := setText { s with agent := some st1 } snapshot.text
      match s1.agent with
      | none => s1
      | some st2 =>
        { s1 with agent := some { st2 with lastText := snapshot.text, isSuppressed := false } }

/-- `set_suppress_undo_tracking`: when turning tracking back on, `lastText`
is resynchronized to the live text. -/
def set_suppress_undo_tracking (s : SyncState) (suppress : Bool) : SyncState :=
  match s.agent with
  | none => s
  | some st =>
    if suppress then { s with agent := some { st with isSuppressed := true } }
    else { s with agent := some { st with isSuppressed := false, lastText := s.doc.text } }

/-- `flushBatch` of `setupWebSocketSync`: defer (clearing the timer handle)
when the pending batch is empty or the socket is not open, otherwise send one
`batch` message and clear the pending batch and the timer handle. -/
def flushBatch (s : SyncState) : SyncState × List Msg :=
  if s.pendingBatch = [] ∨ s.wsReady ≠ .OPEN then
    ({ s with batchTimeout := false }, [])
  else
    ({ s with pendingBatch := [], batchTimeout := false },
     [.batch s.roomId s.pendingBatch])

/-- An inbound wire message after `JSON.parse`; an `operation` message may
lack its `op` field, and absent `ops` arrays are the empty list. -/
inductive InMsg where
  | operation (op : Option Operation)
  | batch (ops : List Operation)
  | sync (ops : List Operation)
  | other
deriving DecidableEq, Repr

/-- Apply a list of well-formed remote operations in order. -/
def applyOps (s : SyncState) (ops : List Operation) : SyncState :=
  ops.foldl (fun s op => (apply_remote_op s (some op)).1) s

/-- `handleMessage` of `dist-test/src/egwalker_api_stub.js`.  The `operation`
branch has no try/finally: when `apply_remote_op` throws, the
`isProcessingRemote = false` line is never reached and the exception
propagates (returned Bool). -/
def handleMessage (s : SyncState) (m : InMsg) : SyncState × Bool :=
  match m with
  | .operation o =>
    let s := { s with isProcessingRemote := true }
    let r := apply_remote_op s o
    if r.2 then (r.1, true)
    else ({ r.1 with isProcessingRemote := false }, false)
  | .batch ops =>
    let s := { s with isProcessingRemote := true }
    let s := applyOps s ops
    ({ s with isProcessingRemote := false }, false)
  | .sync ops =>
    let s := { s with isProcessingRemote := true }
    let s := applyOps s ops
    ({ s with isProcessingRemote := false }, false)
  | .other => (s, false)

/-- Apply a list of remote operations through a caller-supplied apply
routine, stopping at the first thrown exception. -/
def applyOpsWith (applyFn : SyncState → Option Operation → SyncState × Bool)
    (s : SyncState) (ops : List Operation) : SyncState × Bool :=
  match ops with
  | [] => (s, false)
  | op :: rest =>
    let r := applyFn s (some op)
    if r.2 then (r.1, true) else applyOpsWith applyFn r.1 rest

/-- The `ws.onmessage` handler of the batching sync API (`unnamed/part_002`,
`setupWebSocketSync`): every branch wraps application in try/finally whose
`finally` calls `suppressUndoTracking(false)` and resets
`isProcessingRemote`.  The MoonBit `apply_remote_op` is an external
collaborator, taken here as the parameter `applyFn` (returning the new state
and whether it threw). -/
def handleMessageSync (applyFn : SyncState → Option Operation → SyncState × Bool)
    (s : SyncState) (m : InMsg) : SyncState × Bool :=
  match m with
  | .operation o =>
    let s := { s with isProcessingRemote := true }
    let s := set_suppress_undo_tracking s true
    let r := applyFn s o
    let s := set_suppress_undo_tracking r.1 false
    ({ s with isProcessingRemote := false }, r.2)
  | .batch ops =>
    let s := { s with isProcessingRemote := true }
    let s := set_suppress_undo_tracking s true
    let r := applyOpsWith applyFn s ops
    let s := set_suppress_undo_tracking r.1 false
    ({ s with isProcessingRemote := false }, r.2)
  | .sync ops =>
    let s := { s with isProcessingRemote := true }
    let s := set_suppress_undo_tracking s true
    let r := applyOpsWith applyFn s ops
    let s := set_suppress_undo_tracking r.1 false
    ({ s with isProcessingRemote := false }, r.2)
  | .other => (s, false)

/-- `connect()`: no-op once disposed; otherwise state `connecting` and a new
socket is opened. -/
def connect (s : SyncState) : SyncState :=
  if s.isDisposed then s
  else { s with connectionState := .connecting, wsReady := .CONNECTING }

/-- The `ws.onopen` handler: the runtime has just moved the socket to OPEN;
the handler sets state `connected`, resets the retry counter, sends the
`join` message and immediately attempts a flush. -/
def onOpen (s : SyncState) : SyncState × List Msg :=
  let s := { s with wsReady := .OPEN }
  let s := { s with connectionState := .connected, reconnectAttempts := 0 }
  let r := flushBatch s
  (r.1, Msg.join s.roomId :: r.2)

/-- The `ws.onclose` handler: below the attempt ceiling it schedules an
exponential-backoff reconnect, at the ceiling (or once disposed) the state
becomes `disconnected`. -/
def onClose (s : SyncState) : SyncState :=
  let s := { s with wsReady := .CLOSED }
  if s.isDisposed then { s with connectionState := .disconnected }
  else if s.reconnectAttempts < RECONNECT_MAX_ATTEMPTS then
    { s with connectionState := .reconnecting,
             reconnectTimeout :=
               some (Nat.min (RECONNECT_BASE_DELAY_MS * 2 ^ s.reconnectAttempts)
                     RECONNECT_MAX_DELAY_MS),
             reconnectAttempts := s.reconnectAttempts + 1 }
  else { s with connectionState := .disconnected }

/-- The reconnect timer firing: the pending timer is consumed and `connect`
runs. -/
def reconnectTimerFire (s : SyncState) : SyncState :=
  connect { s with reconnectTimeout := none }

/-- The flush timer firing: the timer callback is `flushBatch`. -/
def flushTimerFire (s : SyncState) : SyncState × List Msg :=
  flushBatch s

/-- `cleanup` of `setupWebSocketSync`: mark disposed, unsubscribe, flush once
more when a flush timer was pending, cancel the reconnect timer, close the
socket. -/
def cleanup (s : SyncState) : SyncState × List Msg :=
  let s := { s with isDisposed := true, wsSubscribed := false }
  let r := if s.batchTimeout then flushBatch s else (s, [])
  let s := { r.1 with reconnectTimeout := none }
  ({ s with wsReady := .CLOSED }, r.2)

/-- The fresh proxy document created by `create_egwalker_proxy`. -/
def initDoc : TextState :=
  { text := [], cursor := 0, syncing := false, pendingOps := [] }

/-- `create_egwalker_proxy(agent_id, undo_enabled)` plus the closure
variables of a not-yet-started `setupWebSocketSync`. -/
def create_egwalker_proxy (agent_id : String) (undo_enabled : Bool)
    (roomId : String) : SyncState :=
  { doc := initDoc
    agent := if undo_enabled then
        some { agentId := agent_id, undoStack := [], redoStack := [],
               lastText := [], isSuppressed := false }
      else none
    roomId := roomId
    sentOps := []
    pendingBatch := []
    batchTimeout := false
    isProcessingRemote := false
    reconnectAttempts := 0
    reconnectTimeout := none
    wsSubscribed := false
    isDisposed := false
    connectionState := .connecting
    wsReady := .CLOSED
    clock := 0 }

/-- `setupWebSocketSync` startup: initial `connect()` and the subscription to
proxy changes. -/
def initSession (agent_id roomId : String) (undo_enabled : Bool) : SyncState :=
  connect { create_egwalker_proxy agent_id undo_enabled roomId with wsSubscribed := true }

/-- A session whose socket has just opened. -/
def connectedSession (agent_id roomId : String) (undo_enabled : Bool) : SyncState :=
  (onOpen (initSession agent_id roomId undo_enabled)).1

/-- A command at the batcher surface: one `queueOperation` call or one flush. -/
inductive BatchCmd where
  | queue (op : Operation)
  | flush
deriving DecidableEq, Repr

/-- One batcher command. -/
def stepB (s : SyncState) (c : BatchCmd) : SyncState × List Msg :=
  match c with
  | .queue op => (queueOperation s op, [])
  | .flush => flushBatch s

/-- Run a sequence of batcher commands, collecting every sent message. -/
def runB (s : SyncState) (cs : List BatchCmd) : SyncState × List Msg :=
  match cs with
  | [] => (s, [])
  | c :: rest =>
    let r := stepB s c
    let r2 := runB r.1 rest
    (r2.1, r.2 ++ r2.2)

/-- All operations carried by the `batch` messages of a trace. -/
def flushedOps (ms : List Msg) : List Operation :=
  match ms with
  | [] => []
  | .join _ :: rest => flushedOps rest
  | .batch _ ops :: rest => ops ++ flushedOps rest

/-- How many operations of a list carry a given identity key. -/
def countKey (k : String) (l : List Operation) : Nat :=
  l.countP (fun op => opKey op = k)

/-- The operations passed to `queueOperation` by a command sequence. -/
def queuedOps (cs : List BatchCmd) : List Operation :=
  cs.filterMap (fun c => match c with | .queue op => some op | .flush => none)

/-- Evolution of the insertion-ordered dedup window under a run of fresh-key
insertions: append, then evict the oldest entry when over capacity. -/
def window : List String → List String → List String
  | l, [] => l
  | l, k :: ks =>
    window (if (l ++ [k]).length > SENT_OPS_LIMIT then (l ++ [k]).tail else l ++ [k]) ks

/-- Pairwise-distinct agent names, all different from "a". -/
def cexAgent (i : Nat) : String :=
  String.mk (List.replicate (i + 1) 'b')

/-- A family of operations with pairwise-distinct identity keys. -/
def cexOp (i : Nat) : Operation :=
  { lv := 0, agent_id := cexAgent i, op_type := .Insert }

def cexKey (i : Nat) : String :=
  opKey (cexOp i)

/-- The probe operation whose identity is flushed, evicted and re-queued. -/
def cexOp0 : Operation :=
  { lv := 0, agent_id := "a", op_type := .Insert }

/-- Queue and flush the probe, queue `SENT_OPS_LIMIT` distinct fresh
identities (evicting the probe's key), then queue and flush the probe
again. -/
def cexCmds : List BatchCmd :=
  [BatchCmd.queue cexOp0, BatchCmd.flush]
    ++ (List.range SENT_OPS_LIMIT).map (fun i => BatchCmd.queue (cexOp i))
    ++ [BatchCmd.queue cexOp0, BatchCmd.flush]

/-- A freshly connected session. -/
def cexInit : SyncState :=
  connectedSession "a" "room" false

/-- A session whose dedup window is exactly at capacity. -/
def cexFull : SyncState :=
  { cexInit with sentOps := (List.range SENT_OPS_LIMIT).map cexKey }

/-- Repeated connection failures: each round is one close event followed by
the scheduled reconnect timer firing; the delay scheduled at each close is
recorded. -/
def closeRun : SyncState → Nat → SyncState × List Nat
  | s, 0 => (s, [])
  | s, n + 1 =>
    let s1 := onClose s
    let d := s1.reconnectTimeout.getD 0
    let r := closeRun (reconnectTimerFire s1) n
    (r.1, d :: r.2)

/-- A concrete session whose document text is "hi". -/
def wState : SyncState :=
  { cexInit with doc := { cexInit.doc with text := ['h', 'i'] } }

/-- A concrete remote Delete at position 0. -/
def wDelOp : Operation :=
  { lv := 1, agent_id := "r", op_type := .Delete, origin_left := 0 }

/-- A concrete remote Insert of "x" at position 1. -/
def wInsOp : Operation :=
  { lv := 2, agent_id := "r", op_type := .Insert, content := some ['x'], origin_left := 1 }

/-- A session still connecting, with one operation buffered. -/
def wPending : SyncState :=
  { cexInit with pendingBatch := [cexOp0], wsReady := .CONNECTING,
                 connectionState := .connecting, batchTimeout := true }

/-- A connected session with one buffered operation and a pending flush
timer. -/
def wDispose : SyncState :=
  { cexInit with pendingBatch := [cexOp0], batchTimeout := true }

/-- The agent's undo stack (empty when no undo manager is attached),
mirroring `get_undo_stack_size`'s view. -/
def undoStackOf (s : SyncState) : List UndoSnapshot :=
  match s.agent with
  | some st => st.undoStack
  | none => []

/-- The agent's redo stack, mirroring `get_redo_stack_size`'s view. -/
def redoStackOf (s : SyncState) : List UndoSnapshot :=
  match s.agent with
  | some st => st.redoStack
  | none => []

/-- The agent's suppression flag (false when no undo manager is attached). -/
def suppressedOf (s : SyncState) : Bool :=
  match s.agent with
  | some st => st.isSuppressed
  | none => false

/-- A fresh connected session for agent "a" with the undo manager enabled. -/
def wUndoBase : SyncState :=
  connectedSession "a" "room" true

def wT1 : List Char := ['h', 'i']

def wT2 : List Char := ['h', 'i', ' ', 't', 'h', 'e', 'r', 'e']

/-- The session after the local edit "" → "hi". -/
def wUndo1 : SyncState :=
  setText wUndoBase wT1

/-- The agent undo state expected after the edit "" → "hi". -/
def wSt1 : AgentUndoState :=
  { agentId := "a", undoStack := [⟨[], 0⟩], redoStack := [],
    lastText := ['h', 'i'], isSuppressed := false }

/-- A session with text "hi", an already-buffered operation, and no pending
document operations. -/
def wC6 : SyncState :=
  { wState with pendingBatch := [cexOp0] }

/-- The session after queueing and flushing the probe operation once. -/
def cexMid : SyncState :=
  { cexInit with sentOps := [opKey cexOp0] }

/-- The session after additionally queueing SENT_OPS_LIMIT distinct fresh
identities. -/
def cexS2 : SyncState :=
  ((List.range SENT_OPS_LIMIT).map cexOp).foldl queueOperation cexMid

def wOpA1 : Operation :=
  { lv := 1, agent_id := "a", op_type := .Insert }

def wOpA2 : Operation :=
  { lv := 2, agent_id := "a", op_type := .Insert }

/-- The spec scenario: queue identities (a,1), (a,1), (a,2) in one flush
window, then flush. -/
def wScn : List BatchCmd :=
  [BatchCmd.queue wOpA1, BatchCmd.queue wOpA1, BatchCmd.queue wOpA2, BatchCmd.flush]

end VE

namespace VE

theorem queueOperation_doc (s : SyncState) (op : Operation) :
    (queueOperation s op).doc = s.doc := by
  unfold queueOperation
  dsimp only
  split <;> rfl

theorem foldl_queueOperation_doc (l : List Operation) (s : SyncState) :
    (l.foldl queueOperation s).doc = s.doc := by
  induction l generalizing s with
  | nil => rfl
  | cons op rest ih => rw [List.foldl_cons, ih, queueOperation_doc]

theorem notifyUndo_doc (s : SyncState) : (notifyUndo s).doc = s.doc := by
  unfold notifyUndo
  cases s.agent with
  | none => rfl
  | some st =>
    dsimp only
    split
    · rfl
    · split <;> rfl

theorem notifyNetwork_doc (s : SyncState) : (notifyNetwork s).doc = s.doc := by
  unfold notifyNetwork
  split
  · rfl
  · split
    · rfl
    · exact foldl_queueOperation_doc _ _

theorem notify_doc (s : SyncState) : (notify s).doc = s.doc := by
  unfold notify
  rw [notifyNetwork_doc, notifyUndo_doc]

theorem setText_text (s : SyncState) (t : List Char) :
    (setText s t).doc.text = t := by
  unfold setText
  split
  · simp_all
  · rw [notify_doc]

theorem applyFinally_doc (s : SyncState) : (applyFinally s).doc = s.doc := by
  unfold applyFinally
  cases s.agent <;> rfl

/-- C9: applying a remote Delete clamps the target position to
min(origin_left, text length); a clamped position inside the text removes
exactly the character at that position, while an origin_left at or beyond
the text length leaves the text unchanged, and no error is raised. -/
theorem claim_C9_delete_clamp (s : SyncState) (op : Operation)
    (hdel : op.op_type = .Delete) :
    (Nat.min op.origin_left s.doc.text.length < s.doc.text.length →
        (apply_remote_op s (some op)).1.doc.text
          = s.doc.text.eraseIdx (Nat.min op.origin_left s.doc.text.length))
      ∧ (s.doc.text.length ≤ op.origin_left →
        (apply_remote_op s (some op)).1.doc.text = s.doc.text)
      ∧ (apply_remote_op s (some op)).2 = false := by
  rcases op with ⟨lv, aid, ot, c, ol, orr, deps⟩
  cases hdel
  unfold apply_remote_op applySuppress applyRemoteBody
  cases hag : s.agent with
  | none =>
    dsimp only
    refine ⟨?_, ?_, rfl⟩
    · intro hlt
      rw [if_pos hlt, applyFinally_doc, setText_text,
        List.eraseIdx_eq_take_drop_succ]
    · intro hge
      have : ¬ Nat.min ol s.doc.text.length < s.doc.text.length := by
        simp only [Nat.min_def]
        split <;> omega
      rw [if_neg this, applyFinally_doc]
  | some st =>
    dsimp only
    refine ⟨?_, ?_, rfl⟩
    · intro hlt
      rw [if_pos hlt, applyFinally_doc, setText_text,
        List.eraseIdx_eq_take_drop_succ]
    · intro hge
      have : ¬ Nat.min ol s.doc.text.length < s.doc.text.length := by
        simp only [Nat.min_def]
        split <;> omega
      rw [if_neg this, applyFinally_doc]

theorem claim_C9_witness :
    wDelOp.op_type = .Delete
      ∧ Nat.min wDelOp.origin_left wState.doc.text.length < wState.doc.text.length
      ∧ (apply_remote_op wState (some wDelOp)).1.doc.text
          = wState.doc.text.eraseIdx (Nat.min wDelOp.origin_left wState.doc.text.length) :=
  ⟨rfl, by decide, (claim_C9_delete_clamp wState wDelOp rfl).1 (by decide)⟩

/-- C10: applying a remote Insert whose content is absent or empty leaves the
text unchanged; otherwise the content is inserted at
min(origin_left, text length). -/
theorem claim_C10_insert_content (s : SyncState) (op : Operation)
    (hins : op.op_type = .Insert) :
    ((op.content = none ∨ op.content = some []) →
        (apply_remote_op s (some op)).1.doc.text = s.doc.text)
      ∧ (∀ c, op.content = some c → c ≠ [] →
        (apply_remote_op s (some op)).1.doc.text
          = s.doc.text.take (Nat.min op.origin_left s.doc.text.length) ++ c
            ++ s.doc.text.drop (Nat.min op.origin_left s.doc.text.length)) := by
  rcases op with ⟨lv, aid, ot, c, ol, orr, deps⟩
  cases hins
  unfold apply_remote_op applySuppress applyRemoteBody
  cases hag : s.agent with
  | none =>
    dsimp only
    constructor
    · rintro (h | h) <;> cases h <;> dsimp only
      · rw [applyFinally_doc]
      · rw [if_neg (by simp), applyFinally_doc]
    · rintro c' rfl hne
      dsimp only
      rw [if_pos hne, applyFinally_doc, setText_text]
  | some st =>
    dsimp only
    constructor
    · rintro (h | h) <;> cases h <;> dsimp only
      · rw [applyFinally_doc]
      · rw [if_neg (by simp), applyFinally_doc]
    · rintro c' rfl hne
      dsimp only
      rw [if_pos hne, applyFinally_doc, setText_text]

theorem claim_C10_witness :
    wInsOp.op_type = .Insert
      ∧ wInsOp.content = some ['x'] ∧ (['x'] : List Char) ≠ []
      ∧ (apply_remote_op wState (some wInsOp)).1.doc.text
          = wState.doc.text.take (Nat.min wInsOp.origin_left wState.doc.text.length) ++ ['x']
            ++ wState.doc.text.drop (Nat.min wInsOp.origin_left wState.doc.text.length) :=
  ⟨rfl, rfl, by decide,
    (claim_C10_insert_content wState wInsOp rfl).2 ['x'] rfl (by decide)⟩

theorem connectedSession_eq (ag rm : String) (u : Bool) :
    connectedSession ag rm u =
      { doc := initDoc
        agent := if u then
            some { agentId := ag, undoStack := [], redoStack := [],
                   lastText := [], isSuppressed := false }
          else none
        roomId := rm
        sentOps := []
        pendingBatch := []
        batchTimeout := false
        isProcessingRemote := false
        reconnectAttempts := 0
        reconnectTimeout := none
        wsSubscribed := true
        isDisposed := false
        connectionState := .connected
        wsReady := .OPEN
        clock := 0 } := by
  cases u <;> rfl

theorem queueOperation_of_mem (s : SyncState) (op : Operation)
    (h : opKey op ∈ s.sentOps) : queueOperation s op = s := by
  unfold queueOperation
  rw [if_pos h]

theorem queueOperation_sentOps_le (s : SyncState) (op : Operation)
    (h : s.sentOps.length ≤ SENT_OPS_LIMIT) :
    (queueOperation s op).sentOps.length ≤ SENT_OPS_LIMIT := by
  unfold queueOperation
  dsimp only
  split
  · exact h
  · split
    · simp only [List.length_tail, List.length_append, List.length_singleton]
      omega
    · simp only [List.length_append, List.length_singleton] at *
      omega

theorem flushBatch_sentOps (s : SyncState) : (flushBatch s).1.sentOps = s.sentOps := by
  unfold flushBatch
  split <;> rfl

theorem runB_sentOps_le (cs : List BatchCmd) (s : SyncState)
    (h : s.sentOps.length ≤ SENT_OPS_LIMIT) :
    (runB s cs).1.sentOps.length ≤ SENT_OPS_LIMIT := by
  induction cs generalizing s with
  | nil => exact h
  | cons c rest ih =>
    cases c with
    | queue op =>
      simpa only [runB, stepB] using ih _ (queueOperation_sentOps_le s op h)
    | flush =>
      simp only [runB, stepB]
      exact ih _ (by rw [flushBatch_sentOps]; exact h)

theorem cexKey_data (i : Nat) :
    (cexKey i).data = List.replicate (i + 1) 'b' ++ [':', '0'] := by
  show (cexAgent i ++ ":" ++ Nat.repr 0).data = _
  rw [String.data_append, String.data_append]
  show List.replicate (i + 1) 'b' ++ [':'] ++ ['0'] = _
  simp

theorem key0_data : (opKey cexOp0).data = ['a', ':', '0'] := rfl

theorem cexKey_ne_key0 (i : Nat) : cexKey i ≠ opKey cexOp0 := by
  intro h
  have hd := congrArg String.data h
  rw [cexKey_data, key0_data, List.replicate_succ] at hd
  simp at hd

theorem sentOps_set_proj (x : SyncState) (v : List String) :
    ({ x with sentOps := v } : SyncState).sentOps = v := rfl

theorem cexFull_sentOps : cexFull.sentOps = (List.range SENT_OPS_LIMIT).map cexKey := by
  unfold cexFull
  exact sentOps_set_proj cexInit _

theorem key0_not_mem_cexFull : opKey cexOp0 ∉ cexFull.sentOps := by
  rw [cexFull_sentOps, List.mem_map]
  rintro ⟨i, -, h⟩
  exact cexKey_ne_key0 i h

theorem cexFull_sentOps_length : cexFull.sentOps.length = SENT_OPS_LIMIT := by
  rw [cexFull_sentOps, List.length_map, List.length_range]

/-- C2: after every completed queueOperation call the dedup window holds at
most SENT_OPS_LIMIT identities (both along every run from a fresh session and
as a preservation property), and inserting a fresh identity into a window at
capacity evicts exactly the oldest entry. -/
theorem claim_C2_dedup_capacity :
    (∀ (ag rm : String) (u : Bool) (cs : List BatchCmd),
        (runB (connectedSession ag rm u) cs).1.sentOps.length ≤ SENT_OPS_LIMIT)
      ∧ (∀ s op, s.sentOps.length ≤ SENT_OPS_LIMIT →
          (queueOperation s op).sentOps.length ≤ SENT_OPS_LIMIT)
      ∧ (∀ s op, s.sentOps.length = SENT_OPS_LIMIT → opKey op ∉ s.sentOps →
          (queueOperation s op).sentOps = s.sentOps.tail ++ [opKey op]) := by
  refine ⟨?_, queueOperation_sentOps_le, ?_⟩
  · intro ag rm u cs
    apply runB_sentOps_le
    rw [connectedSession_eq]
    simp [SENT_OPS_LIMIT]
  · intro s op hlen hmem
    unfold queueOperation
    rw [if_neg hmem]
    dsimp only
    rw [if_pos (by simp only [List.length_append, List.length_singleton]; omega)]
    cases hso : s.sentOps with
    | nil => rw [hso] at hlen; simp [SENT_OPS_LIMIT] at hlen
    | cons a t => simp

theorem claim_C2_witness :
    cexFull.sentOps.length = SENT_OPS_LIMIT
      ∧ opKey cexOp0 ∉ cexFull.sentOps
      ∧ (queueOperation cexFull cexOp0).sentOps = cexFull.sentOps.tail ++ [opKey cexOp0]
      ∧ cexInit.sentOps.length ≤ SENT_OPS_LIMIT
      ∧ (queueOperation cexInit cexOp0).sentOps.length ≤ SENT_OPS_LIMIT :=
  ⟨cexFull_sentOps_length, key0_not_mem_cexFull,
    claim_C2_dedup_capacity.2.2 cexFull cexOp0 cexFull_sentOps_length key0_not_mem_cexFull,
    by decide,
    claim_C2_dedup_capacity.2.1 cexInit cexOp0 (by decide)⟩

/-- C3: a flush with an empty pending batch or a non-open socket sends
nothing and clears the timer handle; batch sends only happen with the socket
open; queueing while not connected buffers the operation; and the open
handler moves to connected and immediately sends the join message followed by
one batch carrying everything buffered, in order. -/
theorem claim_C3_no_send_while_disconnected :
    (∀ s, s.pendingBatch = [] ∨ s.wsReady ≠ .OPEN →
        flushBatch s = ({ s with batchTimeout := false }, []))
      ∧ (∀ s, (flushBatch s).2 ≠ [] → s.wsReady = .OPEN)
      ∧ (∀ s op, opKey op ∉ s.sentOps →
          (queueOperation s op).pendingBatch = s.pendingBatch ++ [op])
      ∧ (∀ s, s.pendingBatch ≠ [] →
          (onOpen s).2 = [Msg.join s.roomId, Msg.batch s.roomId s.pendingBatch]
            ∧ (onOpen s).1.pendingBatch = []
            ∧ (onOpen s).1.connectionState = .connected
            ∧ (onOpen s).1.wsReady = .OPEN) := by
  refine ⟨?_, ?_, ?_, ?_⟩
  · intro s h
    unfold flushBatch
    rw [if_pos h]
  · intro s h
    unfold flushBatch at h
    by_cases hc : s.pendingBatch = [] ∨ s.wsReady ≠ .OPEN
    · rw [if_pos hc] at h; simp at h
    · push_neg at hc
      exact hc.2
  · intro s op h
    unfold queueOperation
    rw [if_neg h]
  · intro s h
    unfold onOpen flushBatch
    dsimp only
    rw [if_neg (by simp [h])]
    exact ⟨rfl, rfl, rfl, rfl⟩

theorem claim_C3_witness :
    (cexInit.pendingBatch = [] ∨ cexInit.wsReady ≠ .OPEN)
      ∧ flushBatch cexInit = ({ cexInit with batchTimeout := false }, [])
      ∧ opKey cexOp0 ∉ wPending.sentOps
      ∧ (queueOperation wPending cexOp0).pendingBatch = wPending.pendingBatch ++ [cexOp0]
      ∧ wPending.pendingBatch ≠ []
      ∧ (onOpen wPending).2 = [Msg.join wPending.roomId, Msg.batch wPending.roomId wPending.pendingBatch]
      ∧ (onOpen wPending).1.connectionState = .connected :=
  ⟨Or.inl (by decide),
    claim_C3_no_send_while_disconnected.1 cexInit (Or.inl (by decide)),
    by decide,
    claim_C3_no_send_while_disconnected.2.2.1 wPending cexOp0 (by decide),
    by decide,
    (claim_C3_no_send_while_disconnected.2.2.2 wPending (by decide)).1,
    (claim_C3_no_send_while_disconnected.2.2.2 wPending (by decide)).2.2.1⟩

/-- C4: on close while not disposed, below 10 attempts the state becomes
reconnecting with a scheduled delay of min(1000·2^k, 30000) and the counter
incremented; at the ceiling the state becomes disconnected with no new timer;
ten consecutive failures from a fresh session produce exactly the delays
1000, 2000, 4000, 8000, 16000 and then 30000 five times, after which a
further close leaves the session disconnected with no reconnect pending. -/
theorem claim_C4_reconnect_backoff :
    (∀ s, s.isDisposed = false → s.reconnectAttempts < RECONNECT_MAX_ATTEMPTS →
        onClose s = { s with
          wsReady := .CLOSED
          connectionState := .reconnecting
          reconnectTimeout := some (Nat.min (RECONNECT_BASE_DELAY_MS * 2 ^ s.reconnectAttempts)
              RECONNECT_MAX_DELAY_MS)
          reconnectAttempts := s.reconnectAttempts + 1 })
      ∧ (∀ s, s.isDisposed = false → RECONNECT_MAX_ATTEMPTS ≤ s.reconnectAttempts →
          onClose s = { s with wsReady := .CLOSED, connectionState := .disconnected })
      ∧ (closeRun cexInit 10).2
          = [1000, 2000, 4000, 8000, 16000, 30000, 30000, 30000, 30000, 30000]
      ∧ (onClose (closeRun cexInit 10).1).connectionState = .disconnected
      ∧ (onClose (closeRun cexInit 10).1).reconnectTimeout = none := by
  refine ⟨?_, ?_, by decide, by decide, by decide⟩
  · intro s h1 h2
    unfold onClose
    dsimp only
    rw [if_neg (by simp [h1]), if_pos h2]
  · intro s h1 h2
    unfold onClose
    dsimp only
    rw [if_neg (by simp [h1]), if_neg (by omega)]

theorem claim_C4_witness :
    cexInit.isDisposed = false
      ∧ cexInit.reconnectAttempts < RECONNECT_MAX_ATTEMPTS
      ∧ onClose cexInit = { cexInit with
          wsReady := .CLOSED
          connectionState := .reconnecting
          reconnectTimeout := some (Nat.min (RECONNECT_BASE_DELAY_MS * 2 ^ cexInit.reconnectAttempts)
              RECONNECT_MAX_DELAY_MS)
          reconnectAttempts := cexInit.reconnectAttempts + 1 } :=
  ⟨by decide, by decide, claim_C4_reconnect_backoff.1 cexInit (by decide) (by decide)⟩

/-- C8: disposing with a pending flush timer and a non-empty batch sends that
batch exactly once, cancels both timers, closes the socket, and afterwards a
stale flush timer, reconnect timer or connect attempt has no effect. -/
theorem claim_C8_dispose_flushes_once :
    ∀ s, s.batchTimeout = true → s.pendingBatch ≠ [] → s.wsReady = .OPEN →
      (cleanup s).2 = [Msg.batch s.roomId s.pendingBatch]
        ∧ (cleanup s).1.pendingBatch = []
        ∧ (cleanup s).1.batchTimeout = false
        ∧ (cleanup s).1.reconnectTimeout = none
        ∧ (cleanup s).1.isDisposed = true
        ∧ (cleanup s).1.wsReady = .CLOSED
        ∧ flushTimerFire (cleanup s).1 = ((cleanup s).1, [])
        ∧ connect (cleanup s).1 = (cleanup s).1
        ∧ reconnectTimerFire (cleanup s).1 = (cleanup s).1 := by
  intro s h1 h2 h3
  unfold cleanup
  dsimp only
  rw [if_pos h1]
  unfold flushBatch
  rw [if_neg (by simp [h2, h3])]
  dsimp only
  refine ⟨rfl, rfl, rfl, rfl, rfl, rfl, ?_, rfl, rfl⟩
  unfold flushTimerFire flushBatch
  rw [if_pos (by simp)]

theorem claim_C8_witness :
    wDispose.batchTimeout = true
      ∧ wDispose.pendingBatch ≠ []
      ∧ wDispose.wsReady = .OPEN
      ∧ (cleanup wDispose).2 = [Msg.batch wDispose.roomId wDispose.pendingBatch]
      ∧ (cleanup wDispose).1.reconnectTimeout = none
      ∧ connect (cleanup wDispose).1 = (cleanup wDispose).1 :=
  ⟨by decide, by decide, by decide,
    (claim_C8_dispose_flushes_once wDispose (by decide) (by decide) (by decide)).1,
    (claim_C8_dispose_flushes_once wDispose (by decide) (by decide) (by decide)).2.2.2.1,
    (claim_C8_dispose_flushes_once wDispose (by decide) (by decide) (by decide)).2.2.2.2.2.2.2.1⟩

theorem foldl_queueOperation_pres {α : Type} (f : SyncState → α)
    (hf : ∀ s op, f (queueOperation s op) = f s) :
    ∀ (l : List Operation) (s : SyncState), f (l.foldl queueOperation s) = f s := by
  intro l
  induction l with
  | nil => intro s; rfl
  | cons op rest ih => intro s; rw [List.foldl_cons, ih, hf]

theorem queueOperation_agent (s : SyncState) (op : Operation) :
    (queueOperation s op).agent = s.agent := by
  unfold queueOperation
  dsimp only
  split <;> rfl

theorem queueOperation_clock (s : SyncState) (op : Operation) :
    (queueOperation s op).clock = s.clock := by
  unfold queueOperation
  dsimp only
  split <;> rfl

theorem queueOperation_isProcessingRemote (s : SyncState) (op : Operation) :
    (queueOperation s op).isProcessingRemote = s.isProcessingRemote := by
  unfold queueOperation
  dsimp only
  split <;> rfl

theorem notifyNetwork_agent (s : SyncState) : (notifyNetwork s).agent = s.agent := by
  unfold notifyNetwork
  split
  · rfl
  · split
    · rfl
    · exact foldl_queueOperation_pres _ queueOperation_agent _ _

theorem notifyNetwork_clock (s : SyncState) : (notifyNetwork s).clock = s.clock := by
  unfold notifyNetwork
  split
  · rfl
  · split
    · rfl
    · exact foldl_queueOperation_pres _ queueOperation_clock _ _

theorem notifyNetwork_isProcessingRemote (s : SyncState) :
    (notifyNetwork s).isProcessingRemote = s.isProcessingRemote := by
  unfold notifyNetwork
  split
  · rfl
  · split
    · rfl
    · exact foldl_queueOperation_pres _ queueOperation_isProcessingRemote _ _

theorem notifyUndo_of_suppressed (s : SyncState)
    (h : ∀ st, s.agent = some st → st.isSuppressed = true) :
    notifyUndo s = s := by
  unfold notifyUndo
  cases hag : s.agent with
  | none => rfl
  | some st =>
    dsimp only
    rw [if_pos (by rw [h st hag])]

theorem setText_text_doc (s : SyncState) (t : List Char) :
    (setText s t).doc = { s.doc with text := t } := by
  unfold setText
  split
  · subst t; rfl
  · rw [notify_doc]

theorem setText_agent_of_suppressed (s : SyncState) (t : List Char)
    (h : ∀ st, s.agent = some st → st.isSuppressed = true) :
    (setText s t).agent = s.agent := by
  unfold setText
  split
  · rfl
  · unfold notify
    rw [notifyNetwork_agent, notifyUndo_of_suppressed]
    intro st hst
    exact h st hst

theorem setText_clock (s : SyncState) (t : List Char) :
    (setText s t).clock = s.clock := by
  unfold setText
  split
  · rfl
  · unfold notify
    rw [notifyNetwork_clock]
    unfold notifyUndo
    cases s.agent with
    | none => rfl
    | some st =>
      dsimp only
      split
      · rfl
      · split <;> rfl

theorem setText_agent_push (s : SyncState) (st : AgentUndoState) (t : List Char)
    (hag : s.agent = some st) (hsup : st.isSuppressed = false)
    (ht : t ≠ s.doc.text) (hlt : st.lastText ≠ t) :
    (setText s t).agent
      = some { st with
          undoStack := ⟨st.lastText, s.clock⟩ :: st.undoStack
          redoStack := []
          lastText := t } := by
  unfold setText
  rw [if_neg ht]
  unfold notify
  rw [notifyNetwork_agent]
  unfold notifyUndo
  dsimp only
  rw [hag]
  dsimp only
  rw [if_neg (by rw [hsup]; exact Bool.false_ne_true), if_pos (Ne.symm hlt)]

theorem undo_eq (s : SyncState) (st : AgentUndoState) (snap : UndoSnapshot)
    (rest : List UndoSnapshot) (hag : s.agent = some st)
    (hst : st.undoStack = snap :: rest) :
    (undo s).doc.text = snap.text
      ∧ (undo s).agent = some { st with
          undoStack := rest
          redoStack := ⟨s.doc.text, s.clock⟩ :: st.redoStack
          lastText := snap.text
          isSuppressed := false } := by
  unfold undo
  rw [hag]
  dsimp only
  rw [hst]
  dsimp only
  rw [setText_agent_of_suppressed _ _ (by intro st' h'; cases h'; rfl)]
  dsimp only
  constructor
  · rw [setText_text]
  · rfl

theorem redo_eq (s : SyncState) (st : AgentUndoState) (snap : UndoSnapshot)
    (rest : List UndoSnapshot) (hag : s.agent = some st)
    (hst : st.redoStack = snap :: rest) :
    (redo s).doc.text = snap.text
      ∧ (redo s).agent = some { st with
          redoStack := rest
          undoStack := ⟨s.doc.text, s.clock⟩ :: st.undoStack
          lastText := snap.text
          isSuppressed := false } := by
  unfold redo
  rw [hag]
  dsimp only
  rw [hst]
  dsimp only
  rw [setText_agent_of_suppressed _ _ (by intro st' h'; cases h'; rfl)]
  dsimp only
  constructor
  · rw [setText_text]
  · rfl

theorem redo_of_empty (s : SyncState) (st : AgentUndoState)
    (hag : s.agent = some st) (hst : st.redoStack = []) :
    redo s = s := by
  unfold redo
  rw [hag]
  dsimp only
  rw [hst]

/-- C7: with the undo manager enabled, a local edit pushes a snapshot of the
prior text and clears the redo stack; undo restores the prior text, redo
after that undo restores the edited text, and a fresh local edit after an
undo empties the redo stack so redo becomes a no-op. -/
theorem claim_C7_undo_redo_linear (s : SyncState) (st : AgentUndoState)
    (t₁ u : List Char) (hag : s.agent = some st) (hsup : st.isSuppressed = false)
    (hlast : st.lastText = s.doc.text) (ht : t₁ ≠ s.doc.text) (hu : u ≠ s.doc.text) :
    (setText s t₁).agent
        = some { st with
            undoStack := ⟨s.doc.text, s.clock⟩ :: st.undoStack
            redoStack := []
            lastText := t₁ }
      ∧ (undo (setText s t₁)).doc.text = s.doc.text
      ∧ (redo (undo (setText s t₁))).doc.text = t₁
      ∧ redoStackOf (setText (undo (setText s t₁)) u) = []
      ∧ redo (setText (undo (setText s t₁)) u) = setText (undo (setText s t₁)) u := by
  have hlt : st.lastText ≠ t₁ := by rw [hlast]; exact Ne.symm ht
  have hpush := setText_agent_push s st t₁ hag hsup ht hlt
  rw [hlast] at hpush
  have htext := setText_text s t₁
  refine ⟨hpush, ?_, ?_, ?_, ?_⟩
  · exact (undo_eq (setText s t₁) _ _ _ hpush rfl).1
  · have h1 := undo_eq (setText s t₁) _ _ _ hpush rfl
    have h2 := redo_eq (undo (setText s t₁)) _ _ _ h1.2 rfl
    rw [h2.1]
    exact htext
  · have h1 := undo_eq (setText s t₁) _ _ _ hpush rfl
    have hu' : u ≠ (undo (setText s t₁)).doc.text := by rw [h1.1]; exact hu
    have hpush2 := setText_agent_push (undo (setText s t₁)) _ u h1.2 rfl hu' (Ne.symm hu)
    unfold redoStackOf
    rw [hpush2]
  · have h1 := undo_eq (setText s t₁) _ _ _ hpush rfl
    have hu' : u ≠ (undo (setText s t₁)).doc.text := by rw [h1.1]; exact hu
    have hpush2 := setText_agent_push (undo (setText s t₁)) _ u h1.2 rfl hu' (Ne.symm hu)
    exact redo_of_empty _ _ hpush2 rfl

theorem claim_C7_witness :
    wUndo1.agent = some wSt1
      ∧ wSt1.isSuppressed = false
      ∧ wSt1.lastText = wUndo1.doc.text
      ∧ wT2 ≠ wUndo1.doc.text
      ∧ (['x'] : List Char) ≠ wUndo1.doc.text
      ∧ (undo (setText wUndo1 wT2)).doc.text = wUndo1.doc.text
      ∧ (redo (undo (setText wUndo1 wT2))).doc.text = wT2
      ∧ (undo (undo (setText wUndo1 wT2))).doc.text = []
      ∧ (redo (undo (undo (setText wUndo1 wT2)))).doc.text = ['h', 'i'] :=
  ⟨by decide, by decide, by decide, by decide, by decide,
    (claim_C7_undo_redo_linear wUndo1 wSt1 wT2 ['x'] (by decide) (by decide)
      (by decide) (by decide) (by decide)).2.1,
    (claim_C7_undo_redo_linear wUndo1 wSt1 wT2 ['x'] (by decide) (by decide)
      (by decide) (by decide) (by decide)).2.2.1,
    by decide, by decide⟩

theorem notifyUndo_pendingBatch (s : SyncState) :
    (notifyUndo s).pendingBatch = s.pendingBatch := by
  unfold notifyUndo
  cases s.agent with
  | none => rfl
  | some st =>
    dsimp only
    split
    · rfl
    · split <;> rfl

theorem notifyUndo_sentOps (s : SyncState) :
    (notifyUndo s).sentOps = s.sentOps := by
  unfold notifyUndo
  cases s.agent with
  | none => rfl
  | some st =>
    dsimp only
    split
    · rfl
    · split <;> rfl

theorem notifyUndo_isProcessingRemote (s : SyncState) :
    (notifyUndo s).isProcessingRemote = s.isProcessingRemote := by
  unfold notifyUndo
  cases s.agent with
  | none => rfl
  | some st =>
    dsimp only
    split
    · rfl
    · split <;> rfl

theorem notifyNetwork_of_processing (s : SyncState)
    (h : s.isProcessingRemote = true) : notifyNetwork s = s := by
  unfold notifyNetwork
  split_ifs <;> rfl

theorem notifyNetwork_of_no_pending (s : SyncState)
    (h : s.doc.pendingOps = []) : notifyNetwork s = s := by
  unfold notifyNetwork
  split_ifs <;> simp [h]

theorem setText_pendingBatch_of_processing (s : SyncState) (t : List Char)
    (h : s.isProcessingRemote = true) :
    (setText s t).pendingBatch = s.pendingBatch := by
  unfold setText
  split
  · rfl
  · unfold notify
    rw [notifyNetwork_of_processing _ (by rw [notifyUndo_isProcessingRemote]; exact h),
      notifyUndo_pendingBatch]

theorem setText_sentOps_of_processing (s : SyncState) (t : List Char)
    (h : s.isProcessingRemote = true) :
    (setText s t).sentOps = s.sentOps := by
  unfold setText
  split
  · rfl
  · unfold notify
    rw [notifyNetwork_of_processing _ (by rw [notifyUndo_isProcessingRemote]; exact h),
      notifyUndo_sentOps]

theorem setText_pendingBatch_of_no_pending (s : SyncState) (t : List Char)
    (h : s.doc.pendingOps = []) :
    (setText s t).pendingBatch = s.pendingBatch := by
  unfold setText
  split
  · rfl
  · unfold notify
    rw [notifyNetwork_of_no_pending _ (by rw [notifyUndo_doc]; exact h),
      notifyUndo_pendingBatch]

theorem setText_sentOps_of_no_pending (s : SyncState) (t : List Char)
    (h : s.doc.pendingOps = []) :
    (setText s t).sentOps = s.sentOps := by
  unfold setText
  split
  · rfl
  · unfold notify
    rw [notifyNetwork_of_no_pending _ (by rw [notifyUndo_doc]; exact h),
      notifyUndo_sentOps]

theorem setText_isProcessingRemote (s : SyncState) (t : List Char) :
    (setText s t).isProcessingRemote = s.isProcessingRemote := by
  unfold setText
  split
  · rfl
  · unfold notify
    rw [notifyNetwork_isProcessingRemote, notifyUndo_isProcessingRemote]

theorem applyRemoteBody_cases (s : SyncState) (op : Operation) :
    applyRemoteBody s op = s ∨ ∃ t, applyRemoteBody s op = setText s t := by
  unfold applyRemoteBody
  rcases op with ⟨lv, aid, ot, c, ol, orr, deps⟩
  cases ot with
  | Insert =>
    dsimp only
    cases c with
    | none => exact Or.inl rfl
    | some c' =>
      dsimp only
      split
      · exact Or.inr ⟨_, rfl⟩
      · exact Or.inl rfl
  | Delete =>
    dsimp only
    split
    · exact Or.inr ⟨_, rfl⟩
    · exact Or.inl rfl

theorem applyFinally_pendingBatch (s : SyncState) :
    (applyFinally s).pendingBatch = s.pendingBatch := by
  unfold applyFinally
  cases s.agent <;> rfl

theorem applyFinally_sentOps (s : SyncState) :
    (applyFinally s).sentOps = s.sentOps := by
  unfold applyFinally
  cases s.agent <;> rfl

theorem applyFinally_isProcessingRemote (s : SyncState) :
    (applyFinally s).isProcessingRemote = s.isProcessingRemote := by
  unfold applyFinally
  cases s.agent <;> rfl

theorem suppressedOf_applyFinally (s : SyncState) :
    suppressedOf (applyFinally s) = false := by
  unfold applyFinally suppressedOf
  cases hag : s.agent with
  | none => rw [hag]
  | some st => dsimp only

theorem suppressedOf_apply_remote_op (s : SyncState) (o : Option Operation) :
    suppressedOf (apply_remote_op s o).1 = false := by
  unfold apply_remote_op
  cases o with
  | none => exact suppressedOf_applyFinally _
  | some op => exact suppressedOf_applyFinally _

theorem applySuppress_suppressed (s : SyncState) :
    ∀ st, (applySuppress s).agent = some st → st.isSuppressed = true := by
  unfold applySuppress
  cases hag : s.agent with
  | none =>
    intro st h
    rw [hag] at h
    cases h
  | some st0 =>
    intro st h
    dsimp only at h
    injection h with h
    rw [← h]

theorem applySuppress_pendingBatch (s : SyncState) :
    (applySuppress s).pendingBatch = s.pendingBatch := by
  unfold applySuppress
  cases s.agent <;> rfl

theorem applySuppress_sentOps (s : SyncState) :
    (applySuppress s).sentOps = s.sentOps := by
  unfold applySuppress
  cases s.agent <;> rfl

theorem applySuppress_doc (s : SyncState) :
    (applySuppress s).doc = s.doc := by
  unfold applySuppress
  cases s.agent <;> rfl

theorem applySuppress_isProcessingRemote (s : SyncState) :
    (applySuppress s).isProcessingRemote = s.isProcessingRemote := by
  unfold applySuppress
  cases s.agent <;> rfl

theorem undoStackOf_congr (s1 s2 : SyncState) (h : s1.agent = s2.agent) :
    undoStackOf s1 = undoStackOf s2 := by
  unfold undoStackOf
  rw [h]

theorem redoStackOf_congr (s1 s2 : SyncState) (h : s1.agent = s2.agent) :
    redoStackOf s1 = redoStackOf s2 := by
  unfold redoStackOf
  rw [h]

theorem undoStackOf_applySuppress (s : SyncState) :
    undoStackOf (applySuppress s) = undoStackOf s := by
  unfold applySuppress undoStackOf
  cases hag : s.agent <;> simp [hag]

theorem redoStackOf_applySuppress (s : SyncState) :
    redoStackOf (applySuppress s) = redoStackOf s := by
  unfold applySuppress redoStackOf
  cases hag : s.agent <;> simp [hag]

theorem undoStackOf_applyFinally (s : SyncState) :
    undoStackOf (applyFinally s) = undoStackOf s := by
  unfold applyFinally undoStackOf
  cases hag : s.agent <;> simp [hag]

theorem redoStackOf_applyFinally (s : SyncState) :
    redoStackOf (applyFinally s) = redoStackOf s := by
  unfold applyFinally redoStackOf
  cases hag : s.agent <;> simp [hag]

theorem applyRemoteBody_agent_of_suppressed (s : SyncState) (op : Operation)
    (h : ∀ st, s.agent = some st → st.isSuppressed = true) :
    (applyRemoteBody s op).agent = s.agent := by
  rcases applyRemoteBody_cases s op with h' | ⟨t, h'⟩ <;> rw [h']
  exact setText_agent_of_suppressed s t h

theorem applyRemoteBody_isProcessingRemote (s : SyncState) (op : Operation) :
    (applyRemoteBody s op).isProcessingRemote = s.isProcessingRemote := by
  rcases applyRemoteBody_cases s op with h' | ⟨t, h'⟩ <;> rw [h']
  exact setText_isProcessingRemote s t

theorem applyRemoteBody_pendingBatch_of_processing (s : SyncState) (op : Operation)
    (h : s.isProcessingRemote = true) :
    (applyRemoteBody s op).pendingBatch = s.pendingBatch := by
  rcases applyRemoteBody_cases s op with h' | ⟨t, h'⟩ <;> rw [h']
  exact setText_pendingBatch_of_processing s t h

theorem applyRemoteBody_sentOps_of_processing (s : SyncState) (op : Operation)
    (h : s.isProcessingRemote = true) :
    (applyRemoteBody s op).sentOps = s.sentOps := by
  rcases applyRemoteBody_cases s op with h' | ⟨t, h'⟩ <;> rw [h']
  exact setText_sentOps_of_processing s t h

theorem applyRemoteBody_pendingBatch_of_no_pending (s : SyncState) (op : Operation)
    (h : s.doc.pendingOps = []) :
    (applyRemoteBody s op).pendingBatch = s.pendingBatch := by
  rcases applyRemoteBody_cases s op with h' | ⟨t, h'⟩ <;> rw [h']
  exact setText_pendingBatch_of_no_pending s t h

theorem applyRemoteBody_sentOps_of_no_pending (s : SyncState) (op : Operation)
    (h : s.doc.pendingOps = []) :
    (applyRemoteBody s op).sentOps = s.sentOps := by
  rcases applyRemoteBody_cases s op with h' | ⟨t, h'⟩ <;> rw [h']
  exact setText_sentOps_of_no_pending s t h

theorem applyRemoteBody_doc_pendingOps (s : SyncState) (op : Operation) :
    (applyRemoteBody s op).doc.pendingOps = s.doc.pendingOps := by
  rcases applyRemoteBody_cases s op with h' | ⟨t, h'⟩ <;> rw [h']
  rw [setText_text_doc]

theorem undoStackOf_apply_remote_op (s : SyncState) (o : Option Operation) :
    undoStackOf (apply_remote_op s o).1 = undoStackOf s := by
  unfold apply_remote_op
  cases o with
  | none =>
    rw [undoStackOf_applyFinally, undoStackOf_applySuppress]
  | some op =>
    rw [undoStackOf_applyFinally,
      undoStackOf_congr _ _ (applyRemoteBody_agent_of_suppressed _ op (applySuppress_suppressed s)),
      undoStackOf_applySuppress]

theorem redoStackOf_apply_remote_op (s : SyncState) (o : Option Operation) :
    redoStackOf (apply_remote_op s o).1 = redoStackOf s := by
  unfold apply_remote_op
  cases o with
  | none =>
    rw [redoStackOf_applyFinally, redoStackOf_applySuppress]
  | some op =>
    rw [redoStackOf_applyFinally,
      redoStackOf_congr _ _ (applyRemoteBody_agent_of_suppressed _ op (applySuppress_suppressed s)),
      redoStackOf_applySuppress]

theorem apply_remote_op_isProcessingRemote (s : SyncState) (o : Option Operation) :
    (apply_remote_op s o).1.isProcessingRemote = s.isProcessingRemote := by
  unfold apply_remote_op
  cases o with
  | none => rw [applyFinally_isProcessingRemote, applySuppress_isProcessingRemote]
  | some op =>
    rw [applyFinally_isProcessingRemote, applyRemoteBody_isProcessingRemote,
      applySuppress_isProcessingRemote]

theorem apply_remote_op_pendingBatch_of_processing (s : SyncState) (o : Option Operation)
    (h : s.isProcessingRemote = true) :
    (apply_remote_op s o).1.pendingBatch = s.pendingBatch := by
  unfold apply_remote_op
  cases o with
  | none => rw [applyFinally_pendingBatch, applySuppress_pendingBatch]
  | some op =>
    rw [applyFinally_pendingBatch,
      applyRemoteBody_pendingBatch_of_processing _ op (by rw [applySuppress_isProcessingRemote]; exact h),
      applySuppress_pendingBatch]

theorem apply_remote_op_sentOps_of_processing (s : SyncState) (o : Option Operation)
    (h : s.isProcessingRemote = true) :
    (apply_remote_op s o).1.sentOps = s.sentOps := by
  unfold apply_remote_op
  cases o with
  | none => rw [applyFinally_sentOps, applySuppress_sentOps]
  | some op =>
    rw [applyFinally_sentOps,
      applyRemoteBody_sentOps_of_processing _ op (by rw [applySuppress_isProcessingRemote]; exact h),
      applySuppress_sentOps]

theorem apply_remote_op_doc_pendingOps (s : SyncState) (o : Option Operation) :
    (apply_remote_op s o).1.doc.pendingOps = s.doc.pendingOps := by
  unfold apply_remote_op
  cases o with
  | none => rw [applyFinally_doc, applySuppress_doc]
  | some op =>
    rw [applyFinally_doc, applyRemoteBody_doc_pendingOps, applySuppress_doc]

theorem apply_remote_op_pendingBatch_of_no_pending (s : SyncState) (o : Option Operation)
    (h : s.doc.pendingOps = []) :
    (apply_remote_op s o).1.pendingBatch = s.pendingBatch := by
  unfold apply_remote_op
  cases o with
  | none => rw [applyFinally_pendingBatch, applySuppress_pendingBatch]
  | some op =>
    rw [applyFinally_pendingBatch,
      applyRemoteBody_pendingBatch_of_no_pending _ op (by rw [applySuppress_doc]; exact h),
      applySuppress_pendingBatch]

theorem apply_remote_op_sentOps_of_no_pending (s : SyncState) (o : Option Operation)
    (h : s.doc.pendingOps = []) :
    (apply_remote_op s o).1.sentOps = s.sentOps := by
  unfold apply_remote_op
  cases o with
  | none => rw [applyFinally_sentOps, applySuppress_sentOps]
  | some op =>
    rw [applyFinally_sentOps,
      applyRemoteBody_sentOps_of_no_pending _ op (by rw [applySuppress_doc]; exact h),
      applySuppress_sentOps]

theorem mem_pendingBatch_queueOperation (s : SyncState) (op op' : Operation)
    (h : op' ∈ (queueOperation s op).pendingBatch) :
    op' ∈ s.pendingBatch ∨ op' = op := by
  unfold queueOperation at h
  dsimp only at h
  split at h
  · exact Or.inl h
  · dsimp only at h
    rcases List.mem_append.mp h with h1 | h1
    · exact Or.inl h1
    · exact Or.inr (List.mem_singleton.mp h1)

theorem mem_pendingBatch_foldl_queueOperation :
    ∀ (l : List Operation) (s : SyncState) (op' : Operation),
      op' ∈ (l.foldl queueOperation s).pendingBatch →
      op' ∈ s.pendingBatch ∨ op' ∈ l := by
  intro l
  induction l with
  | nil => intro s op' h; exact Or.inl h
  | cons op rest ih =>
    intro s op' h
    rw [List.foldl_cons] at h
    rcases ih _ _ h with h1 | h1
    · rcases mem_pendingBatch_queueOperation _ _ _ h1 with h2 | h2
      · exact Or.inl h2
      · exact Or.inr (h2 ▸ List.mem_cons_self op rest)
    · exact Or.inr (List.mem_cons_of_mem op h1)

theorem mem_pendingBatch_notifyNetwork (s : SyncState) (op' : Operation)
    (h : op' ∈ (notifyNetwork s).pendingBatch) :
    op' ∈ s.pendingBatch ∨ op' ∈ s.doc.pendingOps := by
  unfold notifyNetwork at h
  split at h
  · exact Or.inl h
  · split at h
    · exact Or.inl h
    · exact mem_pendingBatch_foldl_queueOperation _ _ _ h

theorem mem_pendingBatch_setText (s : SyncState) (t : List Char) (op' : Operation)
    (h : op' ∈ (setText s t).pendingBatch) :
    op' ∈ s.pendingBatch ∨ op' ∈ s.doc.pendingOps := by
  unfold setText at h
  split at h
  · exact Or.inl h
  · unfold notify at h
    rcases mem_pendingBatch_notifyNetwork _ _ h with h1 | h1
    · rw [notifyUndo_pendingBatch] at h1
      exact Or.inl h1
    · rw [notifyUndo_doc] at h1
      exact Or.inr h1

theorem mem_pendingBatch_applyRemoteBody (s : SyncState) (op op' : Operation)
    (h : op' ∈ (applyRemoteBody s op).pendingBatch) :
    op' ∈ s.pendingBatch ∨ op' ∈ s.doc.pendingOps := by
  rcases applyRemoteBody_cases s op with h' | ⟨t, h'⟩ <;> rw [h'] at h
  · exact Or.inl h
  · exact mem_pendingBatch_setText _ _ _ h

theorem mem_pendingBatch_apply_remote_op (s : SyncState) (o : Option Operation)
    (op' : Operation) (h : op' ∈ (apply_remote_op s o).1.pendingBatch) :
    op' ∈ s.pendingBatch ∨ op' ∈ s.doc.pendingOps := by
  unfold apply_remote_op at h
  cases o with
  | none =>
    rw [applyFinally_pendingBatch, applySuppress_pendingBatch] at h
    exact Or.inl h
  | some op =>
    rw [applyFinally_pendingBatch] at h
    rcases mem_pendingBatch_applyRemoteBody _ _ _ h with h1 | h1
    · rw [applySuppress_pendingBatch] at h1
      exact Or.inl h1
    · rw [applySuppress_doc] at h1
      exact Or.inr h1

theorem applyOps_frame :
    ∀ (ops : List Operation) (s : SyncState), s.isProcessingRemote = true →
      (applyOps s ops).isProcessingRemote = true
        ∧ (applyOps s ops).pendingBatch = s.pendingBatch
        ∧ (applyOps s ops).sentOps = s.sentOps
        ∧ undoStackOf (applyOps s ops) = undoStackOf s
        ∧ redoStackOf (applyOps s ops) = redoStackOf s := by
  intro ops
  induction ops with
  | nil => intro s h; exact ⟨h, rfl, rfl, rfl, rfl⟩
  | cons op rest ih =>
    intro s h
    have hstep : ((apply_remote_op s (some op)).1).isProcessingRemote = true := by
      rw [apply_remote_op_isProcessingRemote]; exact h
    have ihs := ih (apply_remote_op s (some op)).1 hstep
    simp only [applyOps, List.foldl_cons] at *
    refine ⟨ihs.1, ?_, ?_, ?_, ?_⟩
    · rw [ihs.2.1, apply_remote_op_pendingBatch_of_processing _ _ h]
    · rw [ihs.2.2.1, apply_remote_op_sentOps_of_processing _ _ h]
    · rw [ihs.2.2.2.1, undoStackOf_apply_remote_op]
    · rw [ihs.2.2.2.2, redoStackOf_apply_remote_op]

/-- C6: handling an inbound operation, batch or sync message leaves the
pending batch, the dedup window and the undo/redo stacks exactly as they
were; the manual applyRemoteOp path likewise never touches the stacks, adds
nothing to the document's pending-operation list, adds nothing to the
pending batch when the document reports no pending local operations, and in
general only pre-existing pending local operations — never the applied
remote operation itself — can enter the pending batch. -/
theorem claim_C6_remote_apply_frame :
    (∀ s m, undoStackOf (handleMessage s m).1 = undoStackOf s
        ∧ redoStackOf (handleMessage s m).1 = redoStackOf s
        ∧ (handleMessage s m).1.pendingBatch = s.pendingBatch
        ∧ (handleMessage s m).1.sentOps = s.sentOps)
      ∧ (∀ s o, undoStackOf (apply_remote_op s o).1 = undoStackOf s
        ∧ redoStackOf (apply_remote_op s o).1 = redoStackOf s
        ∧ (apply_remote_op s o).1.doc.pendingOps = s.doc.pendingOps)
      ∧ (∀ s o, s.doc.pendingOps = [] →
          (apply_remote_op s o).1.pendingBatch = s.pendingBatch
            ∧ (apply_remote_op s o).1.sentOps = s.sentOps)
      ∧ (∀ s o op', op' ∈ (apply_remote_op s o).1.pendingBatch →
          op' ∈ s.pendingBatch ∨ op' ∈ s.doc.pendingOps) := by
  refine ⟨?_, ?_, ?_, mem_pendingBatch_apply_remote_op⟩
  · intro s m
    cases m with
    | operation o =>
      unfold handleMessage
      dsimp only
      split
      · exact ⟨(undoStackOf_apply_remote_op _ o).trans (undoStackOf_congr _ s rfl),
          (redoStackOf_apply_remote_op _ o).trans (redoStackOf_congr _ s rfl),
          (apply_remote_op_pendingBatch_of_processing _ o rfl).trans rfl,
          (apply_remote_op_sentOps_of_processing _ o rfl).trans rfl⟩
      · refine ⟨?_, ?_, ?_, ?_⟩
        · show undoStackOf (apply_remote_op _ o).1 = undoStackOf s
          exact (undoStackOf_apply_remote_op _ o).trans (undoStackOf_congr _ s rfl)
        · show redoStackOf (apply_remote_op _ o).1 = redoStackOf s
          exact (redoStackOf_apply_remote_op _ o).trans (redoStackOf_congr _ s rfl)
        · show (apply_remote_op _ o).1.pendingBatch = s.pendingBatch
          exact (apply_remote_op_pendingBatch_of_processing _ o rfl).trans rfl
        · show (apply_remote_op _ o).1.sentOps = s.sentOps
          exact (apply_remote_op_sentOps_of_processing _ o rfl).trans rfl
    | batch ops =>
      unfold handleMessage
      dsimp only
      have hf := applyOps_frame ops { s with isProcessingRemote := true } rfl
      exact ⟨(hf.2.2.2.1).trans (undoStackOf_congr _ s rfl),
        (hf.2.2.2.2).trans (redoStackOf_congr _ s rfl),
        (hf.2.1).trans rfl, (hf.2.2.1).trans rfl⟩
    | sync ops =>
      unfold handleMessage
      dsimp only
      have hf := applyOps_frame ops { s with isProcessingRemote := true } rfl
      exact ⟨(hf.2.2.2.1).trans (undoStackOf_congr _ s rfl),
        (hf.2.2.2.2).trans (redoStackOf_congr _ s rfl),
        (hf.2.1).trans rfl, (hf.2.2.1).trans rfl⟩
    | other => exact ⟨rfl, rfl, rfl, rfl⟩
  · intro s o
    exact ⟨undoStackOf_apply_remote_op s o, redoStackOf_apply_remote_op s o,
      apply_remote_op_doc_pendingOps s o⟩
  · intro s o h
    exact ⟨apply_remote_op_pendingBatch_of_no_pending s o h,
      apply_remote_op_sentOps_of_no_pending s o h⟩

theorem claim_C6_witness :
    wC6.doc.pendingOps = []
      ∧ (apply_remote_op wC6 (some wInsOp)).1.pendingBatch = wC6.pendingBatch
      ∧ (apply_remote_op wC6 (some wInsOp)).1.sentOps = wC6.sentOps
      ∧ cexOp0 ∈ (apply_remote_op wC6 (some wInsOp)).1.pendingBatch
      ∧ (cexOp0 ∈ wC6.pendingBatch ∨ cexOp0 ∈ wC6.doc.pendingOps) :=
  ⟨by decide,
    (claim_C6_remote_apply_frame.2.2.1 wC6 (some wInsOp) (by decide)).1,
    (claim_C6_remote_apply_frame.2.2.1 wC6 (some wInsOp) (by decide)).2,
    by decide,
    claim_C6_remote_apply_frame.2.2.2 wC6 (some wInsOp) cexOp0 (by decide)⟩

theorem suppressedOf_unsuppress (s : SyncState) :
    suppressedOf (set_suppress_undo_tracking s false) = false := by
  unfold set_suppress_undo_tracking suppressedOf
  cases hag : s.agent <;> simp [hag]

/-- C5: in the dist-test stub, an `operation` message whose `op` field is
absent makes `JSON.parse` throw inside `apply_remote_op`; the inner finally
still clears the agent suppression flag, but `handleMessage` has no
try/finally, so `isProcessingRemote` is left `true` after the handler — the
flag is not cleared on this exit path (the batch/sync branches and the
batching sync API's onmessage handler of `unnamed/part_002` do clear their
flags on every exit path, whatever the apply routine does). -/
theorem claim_C5_suppression_flag :
    (handleMessage cexInit (InMsg.operation none)).2 = true
      ∧ (handleMessage cexInit (InMsg.operation none)).1.isProcessingRemote = true
      ∧ (∀ s ops, (handleMessage s (InMsg.batch ops)).1.isProcessingRemote = false)
      ∧ (∀ s ops, (handleMessage s (InMsg.sync ops)).1.isProcessingRemote = false)
      ∧ (∀ s o, suppressedOf (apply_remote_op s o).1 = false)
      ∧ (∀ applyFn s o,
          (handleMessageSync applyFn s (InMsg.operation o)).1.isProcessingRemote = false
            ∧ suppressedOf (handleMessageSync applyFn s (InMsg.operation o)).1 = false)
      ∧ (∀ applyFn s ops,
          (handleMessageSync applyFn s (InMsg.batch ops)).1.isProcessingRemote = false
            ∧ suppressedOf (handleMessageSync applyFn s (InMsg.batch ops)).1 = false)
      ∧ (∀ applyFn s ops,
          (handleMessageSync applyFn s (InMsg.sync ops)).1.isProcessingRemote = false
            ∧ suppressedOf (handleMessageSync applyFn s (InMsg.sync ops)).1 = false) := by
  refine ⟨by decide, by decide, fun s ops => rfl, fun s ops => rfl,
    suppressedOf_apply_remote_op, ?_, ?_, ?_⟩
  · intro applyFn s o
    exact ⟨rfl, suppressedOf_unsuppress _⟩
  · intro applyFn s ops
    exact ⟨rfl, suppressedOf_unsuppress _⟩
  · intro applyFn s ops
    exact ⟨rfl, suppressedOf_unsuppress _⟩

theorem runB_nil (s : SyncState) : runB s [] = (s, []) := rfl

theorem runB_cons (s : SyncState) (c : BatchCmd) (rest : List BatchCmd) :
    runB s (c :: rest)
      = ((runB (stepB s c).1 rest).1, (stepB s c).2 ++ (runB (stepB s c).1 rest).2) := rfl

theorem runB_append (l₁ l₂ : List BatchCmd) :
    ∀ s : SyncState,
      runB s (l₁ ++ l₂)
        = ((runB (runB s l₁).1 l₂).1, (runB s l₁).2 ++ (runB (runB s l₁).1 l₂).2) := by
  induction l₁ with
  | nil => intro s; simp [runB_nil, runB]
  | cons c rest ih =>
    intro s
    rw [List.cons_append, runB_cons, runB_cons, ih]
    simp [List.append_assoc]

theorem runB_queue_map :
    ∀ (ops : List Operation) (s : SyncState),
      runB s (ops.map BatchCmd.queue) = (ops.foldl queueOperation s, []) := by
  intro ops
  induction ops with
  | nil => intro s; rfl
  | cons op rest ih =>
    intro s
    rw [List.map_cons, runB_cons, List.foldl_cons]
    simp [stepB, ih]

theorem queueOperation_fresh (s : SyncState) (op : Operation)
    (h : opKey op ∉ s.sentOps) :
    queueOperation s op
      = { s with
          sentOps := if (s.sentOps ++ [opKey op]).length > SENT_OPS_LIMIT then
              (s.sentOps ++ [opKey op]).tail
            else s.sentOps ++ [opKey op]
          pendingBatch := s.pendingBatch ++ [op]
          batchTimeout := true } := by
  unfold queueOperation
  rw [if_neg h]

theorem queueOperation_wsReady (s : SyncState) (op : Operation) :
    (queueOperation s op).wsReady = s.wsReady := by
  unfold queueOperation
  dsimp only
  split <;> rfl

theorem queueOperation_roomId (s : SyncState) (op : Operation) :
    (queueOperation s op).roomId = s.roomId := by
  unfold queueOperation
  dsimp only
  split <;> rfl

theorem tail_append_of_ne_nil {α : Type} (l₁ l₂ : List α) (h : l₁ ≠ []) :
    (l₁ ++ l₂).tail = l₁.tail ++ l₂ := by
  cases l₁ with
  | nil => exact absurd rfl h
  | cons a t => rfl

theorem window_eq_drop :
    ∀ (ks l : List String), l.length ≤ SENT_OPS_LIMIT →
      window l ks = (l ++ ks).drop (l.length + ks.length - SENT_OPS_LIMIT) := by
  intro ks
  induction ks with
  | nil =>
    intro l h
    simp [window, Nat.sub_eq_zero_of_le h]
  | cons k rest ih =>
    intro l h
    show window (if (l ++ [k]).length > SENT_OPS_LIMIT then (l ++ [k]).tail else l ++ [k]) rest
      = (l ++ k :: rest).drop (l.length + (rest.length + 1) - SENT_OPS_LIMIT)
    split
    · rename_i hgt
      simp only [List.length_append, List.length_singleton] at hgt
      have htl : ((l ++ [k]).tail).length ≤ SENT_OPS_LIMIT := by
        simp only [List.length_tail, List.length_append, List.length_singleton]
        omega
      rw [ih _ htl]
      have h1 : ((l ++ [k]).tail).length = SENT_OPS_LIMIT := by
        simp only [List.length_tail, List.length_append, List.length_singleton]
        omega
      have h2 : SENT_OPS_LIMIT + rest.length - SENT_OPS_LIMIT = rest.length := by omega
      have h3 : l.length + (rest.length + 1) - SENT_OPS_LIMIT = rest.length + 1 := by omega
      rw [h1, h2, h3, List.append_cons l k rest]
      have e2 : (l ++ [k]).tail ++ rest = ((l ++ [k]) ++ rest).tail :=
        (tail_append_of_ne_nil (l ++ [k]) rest (by simp)).symm
      rw [e2, ← List.drop_one, List.drop_drop, Nat.add_comm]
    · rename_i hle
      simp only [List.length_append, List.length_singleton] at hle
      have hl1 : (l ++ [k]).length ≤ SENT_OPS_LIMIT := by
        simp only [List.length_append, List.length_singleton]
        omega
      rw [ih _ hl1]
      simp only [List.length_append, List.length_singleton, List.append_assoc,
        List.singleton_append]
      have harith : l.length + 1 + rest.length - SENT_OPS_LIMIT
          = l.length + (rest.length + 1) - SENT_OPS_LIMIT := by omega
      rw [harith]

theorem foldl_queueOperation_fresh :
    ∀ (l : List Operation) (s : SyncState),
      (∀ op ∈ l, opKey op ∉ s.sentOps) → (l.map opKey).Nodup →
      (l.foldl queueOperation s).sentOps = window s.sentOps (l.map opKey)
        ∧ (l.foldl queueOperation s).pendingBatch = s.pendingBatch ++ l := by
  intro l
  induction l with
  | nil => intro s _ _; simp [window]
  | cons op rest ih =>
    intro s hfresh hnd
    rw [List.map_cons] at hnd ⊢
    have hk : opKey op ∉ s.sentOps := hfresh op (List.mem_cons_self op rest)
    rw [List.foldl_cons, queueOperation_fresh s op hk]
    have hfresh2 : ∀ op' ∈ rest,
        opKey op' ∉ (if (s.sentOps ++ [opKey op]).length > SENT_OPS_LIMIT then
          (s.sentOps ++ [opKey op]).tail else s.sentOps ++ [opKey op]) := by
      intro op' hmem hcontra
      have hs : opKey op' ∈ s.sentOps ++ [opKey op] := by
        revert hcontra
        split
        · intro hcontra
          exact List.tail_sublist _ |>.subset hcontra
        · intro hcontra
          exact hcontra
      rcases List.mem_append.mp hs with h1 | h1
      · exact hfresh op' (List.mem_cons_of_mem op hmem) h1
      · have : opKey op' = opKey op := List.mem_singleton.mp h1
        have : opKey op ∈ rest.map opKey := this ▸ List.mem_map_of_mem opKey hmem
        exact (List.nodup_cons.mp hnd).1 this
    have := ih ({ s with
        sentOps := if (s.sentOps ++ [opKey op]).length > SENT_OPS_LIMIT then
            (s.sentOps ++ [opKey op]).tail
          else s.sentOps ++ [opKey op]
        pendingBatch := s.pendingBatch ++ [op]
        batchTimeout := true })
      (fun op' hmem => hfresh2 op' hmem) (List.nodup_cons.mp hnd).2
    refine ⟨this.1, ?_⟩
    rw [this.2]
    simp

theorem key0_not_mem_keys (n : Nat) :
    opKey cexOp0 ∉ (List.range n).map cexKey := by
  rw [List.mem_map]
  rintro ⟨i, -, h⟩
  exact cexKey_ne_key0 i h

theorem cexKey_injective : Function.Injective cexKey := by
  intro i j h
  have hd := congrArg String.data h
  rw [cexKey_data, cexKey_data] at hd
  have := congrArg List.length hd
  simp only [List.length_append, List.length_replicate] at this
  omega

theorem cexKeys_nodup (n : Nat) : ((List.range n).map cexKey).Nodup :=
  (List.nodup_range n).map cexKey_injective

theorem queuedOps_queue (op : Operation) (cs : List BatchCmd) :
    queuedOps (BatchCmd.queue op :: cs) = op :: queuedOps cs := by
  simp [queuedOps, List.filterMap_cons]

theorem queuedOps_flush (cs : List BatchCmd) :
    queuedOps (BatchCmd.flush :: cs) = queuedOps cs := by
  simp [queuedOps, List.filterMap_cons]

theorem countKey_append (k : String) (l₁ l₂ : List Operation) :
    countKey k (l₁ ++ l₂) = countKey k l₁ + countKey k l₂ := by
  unfold countKey
  exact List.countP_append _ _ _

theorem countKey_eq_zero (k : String) (l : List Operation)
    (h : ∀ op ∈ l, opKey op ≠ k) : countKey k l = 0 := by
  unfold countKey
  rw [List.countP_eq_zero]
  intro op hop
  simpa using h op hop

theorem countKey_single_self (op : Operation) : countKey (opKey op) [op] = 1 := by
  unfold countKey
  simp

theorem flushBatch_sends (s : SyncState) (h1 : s.pendingBatch ≠ [])
    (h2 : s.wsReady = .OPEN) :
    flushBatch s
      = ({ s with pendingBatch := [], batchTimeout := false },
         [Msg.batch s.roomId s.pendingBatch]) := by
  unfold flushBatch
  rw [if_neg (by simp [h1, h2])]

theorem runB_at_most_once :
    ∀ (cs : List BatchCmd) (s : SyncState) (acc : List Operation),
      s.sentOps.Nodup →
      (∀ op ∈ acc ++ s.pendingBatch, opKey op ∈ s.sentOps) →
      (∀ k, countKey k (acc ++ s.pendingBatch) ≤ 1) →
      (s.sentOps.toFinset ∪ ((queuedOps cs).map opKey).toFinset).card ≤ SENT_OPS_LIMIT →
      ∀ k, countKey k ((acc ++ flushedOps (runB s cs).2) ++ (runB s cs).1.pendingBatch) ≤ 1 := by
  intro cs
  induction cs with
  | nil =>
    intro s acc hnd hmem hcount hcard k
    rw [runB_nil]
    simpa [flushedOps] using hcount k
  | cons c rest ih =>
    intro s acc hnd hmem hcount hcard k
    cases c with
    | flush =>
      rw [runB_cons]
      simp only [stepB]
      by_cases hc : s.pendingBatch = [] ∨ s.wsReady ≠ .OPEN
      · have hfb : flushBatch s = ({ s with batchTimeout := false }, []) := by
          unfold flushBatch
          rw [if_pos hc]
        rw [hfb]
        dsimp only
        rw [List.nil_append]
        rw [queuedOps_flush] at hcard
        exact ih { s with batchTimeout := false } acc hnd hmem hcount hcard k
      · push_neg at hc
        have hfb := flushBatch_sends s hc.1 hc.2
        rw [hfb]
        dsimp only
        show countKey k
          ((acc ++ (s.pendingBatch
              ++ flushedOps (runB { s with pendingBatch := [], batchTimeout := false } rest).2))
            ++ (runB { s with pendingBatch := [], batchTimeout := false } rest).1.pendingBatch) ≤ 1
        rw [← List.append_assoc]
        rw [queuedOps_flush] at hcard
        refine ih { s with pendingBatch := [], batchTimeout := false } (acc ++ s.pendingBatch)
          hnd ?_ ?_ hcard k
        · intro op hop
          rw [List.append_nil] at hop
          exact hmem op hop
        · intro k'
          rw [List.append_nil]
          exact hcount k'
    | queue op =>
      rw [runB_cons]
      simp only [stepB]
      rw [List.nil_append]
      rw [queuedOps_queue, List.map_cons, List.toFinset_cons] at hcard
      by_cases hk : opKey op ∈ s.sentOps
      · rw [queueOperation_of_mem s op hk]
        refine ih s acc hnd hmem hcount ?_ k
        exact le_trans
          (Finset.card_le_card (Finset.union_subset_union_right (Finset.subset_insert _ _)))
          hcard
      · have hnd' : (s.sentOps ++ [opKey op]).Nodup := by
          rw [List.nodup_append]
          refine ⟨hnd, List.nodup_singleton _, ?_⟩
          intro a ha hb
          rw [List.mem_singleton] at hb
          exact hk (hb ▸ ha)
        have hlen : (s.sentOps ++ [opKey op]).length ≤ SENT_OPS_LIMIT := by
          rw [← List.toFinset_card_of_nodup hnd']
          refine le_trans (Finset.card_le_card ?_) hcard
          rw [List.toFinset_append]
          intro x hx
          rcases Finset.mem_union.mp hx with h1 | h1
          · exact Finset.mem_union.mpr (Or.inl h1)
          · simp only [List.toFinset_cons, List.toFinset_nil, insert_emptyc_eq,
              Finset.mem_singleton] at h1
            subst h1
            exact Finset.mem_union.mpr (Or.inr (Finset.mem_insert_self _ _))
        have hnoev : ¬ (s.sentOps ++ [opKey op]).length > SENT_OPS_LIMIT := by omega
        rw [queueOperation_fresh s op hk, if_neg hnoev]
        refine ih { s with
            sentOps := s.sentOps ++ [opKey op]
            pendingBatch := s.pendingBatch ++ [op]
            batchTimeout := true } acc hnd' ?_ ?_ ?_ k
        · intro op' hop
          rw [← List.append_assoc] at hop
          rcases List.mem_append.mp hop with h1 | h1
          · exact List.mem_append_left _ (hmem op' h1)
          · rw [List.mem_singleton] at h1
            subst h1
            exact List.mem_append_right _ (List.mem_singleton_self _)
        · intro k'
          rw [← List.append_assoc, countKey_append]
          by_cases hkk : opKey op = k'
          · subst hkk
            have h0 : countKey (opKey op) (acc ++ s.pendingBatch) = 0 :=
              countKey_eq_zero _ _ (fun op'' hm he => hk (he ▸ hmem op'' hm))
            rw [h0, countKey_single_self]
          · have h1 : countKey k' [op] = 0 := by
              refine countKey_eq_zero _ _ ?_
              intro op'' hm
              rw [List.mem_singleton] at hm
              subst hm
              exact hkk
            rw [h1]
            have := hcount k'
            omega
        · show ((s.sentOps ++ [opKey op]).toFinset ∪ _).card ≤ SENT_OPS_LIMIT
          rw [List.toFinset_append]
          have hset : s.sentOps.toFinset ∪ [opKey op].toFinset
                ∪ ((queuedOps rest).map opKey).toFinset
              = s.sentOps.toFinset ∪ insert (opKey op) ((queuedOps rest).map opKey).toFinset := by
            simp only [List.toFinset_cons, List.toFinset_nil, insert_emptyc_eq,
              Finset.insert_eq, Finset.union_assoc]
          rw [hset]
          exact hcard

/-- C1 (amended): queueing an identity already in the dedup window is a
no-op, and as long as the number of distinct identities queued does not
exceed the window capacity (so that no eviction occurs), every identity
appears at most once across all flushed batches of any command sequence run
from a freshly connected session. -/
theorem claim_C1_dedup_at_most_once :
    (∀ s op, opKey op ∈ s.sentOps → queueOperation s op = s)
      ∧ (∀ (ag rm : String) (u : Bool) (cs : List BatchCmd),
          ((queuedOps cs).map opKey).toFinset.card ≤ SENT_OPS_LIMIT →
          ∀ k, countKey k (flushedOps (runB (connectedSession ag rm u) cs).2) ≤ 1) := by
  refine ⟨queueOperation_of_mem, ?_⟩
  intro ag rm u cs hcard k
  have h := runB_at_most_once cs (connectedSession ag rm u) []
    (by rw [connectedSession_eq]; exact List.nodup_nil)
    (by rw [connectedSession_eq]; intro op hop; simp at hop)
    (by rw [connectedSession_eq]; intro k'; simp [countKey])
    (by rw [connectedSession_eq]; simpa using hcard)
    k
  rw [List.nil_append, countKey_append] at h
  omega

theorem claim_C1_witness :
    ((queuedOps wScn).map opKey).toFinset.card ≤ SENT_OPS_LIMIT
      ∧ countKey (opKey wOpA1) (flushedOps (runB (connectedSession "a" "room" false) wScn).2) ≤ 1
      ∧ countKey (opKey wOpA2) (flushedOps (runB (connectedSession "a" "room" false) wScn).2) ≤ 1
      ∧ flushedOps (runB (connectedSession "a" "room" false) wScn).2 = [wOpA1, wOpA2] :=
  ⟨by decide,
    claim_C1_dedup_at_most_once.2 "a" "room" false wScn (by decide) (opKey wOpA1),
    claim_C1_dedup_at_most_once.2 "a" "room" false wScn (by decide) (opKey wOpA2),
    by decide⟩

theorem flushedOps_append (m₁ m₂ : List Msg) :
    flushedOps (m₁ ++ m₂) = flushedOps m₁ ++ flushedOps m₂ := by
  induction m₁ with
  | nil => rfl
  | cons m rest ih =>
    cases m with
    | join r => simpa [flushedOps] using ih
    | batch r ops => simp [flushedOps, ih]

theorem runB_queue_flush (s : SyncState) (op : Operation) :
    runB s [BatchCmd.queue op, BatchCmd.flush]
      = ((flushBatch (queueOperation s op)).1, (flushBatch (queueOperation s op)).2) := by
  rw [runB_cons, runB_cons, runB_nil]
  simp [stepB]

theorem runB_queue_flush_snd (s : SyncState) (op : Operation) :
    (runB s [BatchCmd.queue op, BatchCmd.flush]).2
      = (flushBatch (queueOperation s op)).2 := by
  rw [runB_queue_flush]

/-- C1 counterexample: queue and flush the probe identity, queue 10000
distinct fresh identities (evicting the probe's key from the dedup window),
then queue and flush the probe again: its identity appears in two flushed
batches. -/
theorem claim_C1_counterexample :
    countKey (opKey cexOp0) (flushedOps (runB cexInit cexCmds).2) = 2 := by
  have hA : runB cexInit [BatchCmd.queue cexOp0, BatchCmd.flush]
      = (cexMid, [Msg.batch "room" [cexOp0]]) := by decide
  have hB1 : (List.range SENT_OPS_LIMIT).map (fun i => BatchCmd.queue (cexOp i))
      = ((List.range SENT_OPS_LIMIT).map cexOp).map BatchCmd.queue := by
    rw [List.map_map]
    rfl
  have hfresh : ∀ op ∈ (List.range SENT_OPS_LIMIT).map cexOp,
      opKey op ∉ cexMid.sentOps := by
    intro op hop
    rw [List.mem_map] at hop
    obtain ⟨i, -, rfl⟩ := hop
    intro hmm
    have h' : cexKey i ∈ [opKey cexOp0] := hmm
    rw [List.mem_singleton] at h'
    exact cexKey_ne_key0 i h'
  have hkeys : ((List.range SENT_OPS_LIMIT).map cexOp).map opKey
      = (List.range SENT_OPS_LIMIT).map cexKey := by
    rw [List.map_map]
    rfl
  have hnodup : (((List.range SENT_OPS_LIMIT).map cexOp).map opKey).Nodup := by
    rw [hkeys]
    exact cexKeys_nodup _
  have hfold := foldl_queueOperation_fresh ((List.range SENT_OPS_LIMIT).map cexOp)
    cexMid hfresh hnodup
  have hsent : cexS2.sentOps = (List.range SENT_OPS_LIMIT).map cexKey := by
    have h1 : cexS2.sentOps
        = window cexMid.sentOps (((List.range SENT_OPS_LIMIT).map cexOp).map opKey) :=
      hfold.1
    rw [h1, hkeys]
    have hms : cexMid.sentOps = [opKey cexOp0] := rfl
    rw [hms, window_eq_drop _ _ (by simp [SENT_OPS_LIMIT])]
    have hlen : ([opKey cexOp0] : List String).length
        + ((List.range SENT_OPS_LIMIT).map cexKey).length - SENT_OPS_LIMIT = 1 := by
      simp only [List.length_singleton, List.length_map, List.length_range]
      omega
    rw [hlen, List.singleton_append, List.drop_succ_cons, List.drop_zero]
  have hpb : cexS2.pendingBatch = (List.range SENT_OPS_LIMIT).map cexOp := by
    have h1 : cexS2.pendingBatch
        = cexMid.pendingBatch ++ (List.range SENT_OPS_LIMIT).map cexOp := hfold.2
    rw [h1]
    have hmpb : cexMid.pendingBatch = [] := rfl
    rw [hmpb, List.nil_append]
  have hws : cexS2.wsReady = .OPEN := by
    have h1 : cexS2.wsReady = cexMid.wsReady :=
      foldl_queueOperation_pres SyncState.wsReady queueOperation_wsReady _ _
    rw [h1]
    rfl
  have hroom : cexS2.roomId = "room" := by
    have h1 : cexS2.roomId = cexMid.roomId :=
      foldl_queueOperation_pres SyncState.roomId queueOperation_roomId _ _
    rw [h1]
    rfl
  have hBrun : runB cexMid ((List.range SENT_OPS_LIMIT).map (fun i => BatchCmd.queue (cexOp i)))
      = (cexS2, []) := by
    rw [hB1, runB_queue_map, cexS2]
  have hk0 : opKey cexOp0 ∉ cexS2.sentOps := by
    rw [hsent]
    exact key0_not_mem_keys _
  have hq := queueOperation_fresh cexS2 cexOp0 hk0
  have hp3 : (queueOperation cexS2 cexOp0).pendingBatch = cexS2.pendingBatch ++ [cexOp0] := by
    rw [hq]
  have hw3 : (queueOperation cexS2 cexOp0).wsReady = .OPEN := by
    rw [queueOperation_wsReady]
    exact hws
  have hr3 : (queueOperation cexS2 cexOp0).roomId = "room" := by
    rw [queueOperation_roomId]
    exact hroom
  have hpne : (queueOperation cexS2 cexOp0).pendingBatch ≠ [] := by
    rw [hp3]
    simp
  have hflush3 := flushBatch_sends (queueOperation cexS2 cexOp0) hpne hw3
  have hmsg3 : (flushBatch (queueOperation cexS2 cexOp0)).2
      = [Msg.batch "room" ((List.range SENT_OPS_LIMIT).map cexOp ++ [cexOp0])] := by
    rw [hflush3, hr3, hp3, hpb]
  have e2 := runB_append [BatchCmd.queue cexOp0, BatchCmd.flush]
    ((List.range SENT_OPS_LIMIT).map (fun i => BatchCmd.queue (cexOp i))) cexInit
  rw [hA] at e2
  dsimp only at e2
  rw [hBrun] at e2
  dsimp only at e2
  rw [List.append_nil] at e2
  have e1 := runB_append ([BatchCmd.queue cexOp0, BatchCmd.flush]
      ++ (List.range SENT_OPS_LIMIT).map (fun i => BatchCmd.queue (cexOp i)))
    [BatchCmd.queue cexOp0, BatchCmd.flush] cexInit
  rw [e2] at e1
  dsimp only at e1
  have hsnd : (runB cexInit ([BatchCmd.queue cexOp0, BatchCmd.flush]
      ++ (List.range SENT_OPS_LIMIT).map (fun i => BatchCmd.queue (cexOp i))
      ++ [BatchCmd.queue cexOp0, BatchCmd.flush])).2
      = [Msg.batch "room" [cexOp0]]
        ++ (runB cexS2 [BatchCmd.queue cexOp0, BatchCmd.flush]).2 := by
    rw [e1]
  have hc2 := runB_queue_flush_snd cexS2 cexOp0
  rw [hc2, hmsg3] at hsnd
  have hcc : cexCmds = [BatchCmd.queue cexOp0, BatchCmd.flush]
      ++ (List.range SENT_OPS_LIMIT).map (fun i => BatchCmd.queue (cexOp i))
      ++ [BatchCmd.queue cexOp0, BatchCmd.flush] := rfl
  rw [hcc, hsnd, flushedOps_append]
  simp only [flushedOps, List.append_nil]
  have hzero : countKey (opKey cexOp0) ((List.range SENT_OPS_LIMIT).map cexOp) = 0 := by
    refine countKey_eq_zero _ _ ?_
    intro op hop
    rw [List.mem_map] at hop
    obtain ⟨i, -, rfl⟩ := hop
    exact cexKey_ne_key0 i
  rw [countKey_append, countKey_append, countKey_single_self, hzero]

end VE
